import Mathlib

/-!
Shallow embedding of `src/rendering/voxel_carving.cpp` (class `VoxelCarving`):
space carving of a voxel field from calibrated camera silhouettes.

Modelling choices:
* C++ `float` values are modelled as exact rationals `ℚ`; `std::numeric_limits<float>::max()`
  is the rational `(2^24 - 1) * 2^104 = 2^128 - 2^104`, the exact value of `FLT_MAX`.
* the backing buffer `vox_array_` (a `float[voxel_dim³]`) is a `List ℚ`;
  `std::fill_n` at construction becomes `List.replicate`.
* a `Camera` observation is a record of the data one `carve` call reads from it:
  the image size, the binary mask, the distance map `Segmentation::createDistMap(Mask)`
  (sampled as functions over pixel coordinates) and the projection `project<...>(cam, v)`
  (an abstract function, camera calibration being outside this core).
* the triple-nested `for` loop of `carve` is a nested `List.foldl` over `List.range`.
-/

namespace Restore

/-- Bounding box `bb_bounds`: six world-space scalars. -/
structure BbBounds where
  xmin : ℚ
  xmax : ℚ
  ymin : ℚ
  ymax : ℚ
  zmin : ℚ
  zmax : ℚ

/-- `start_params`: grid origin and per-axis voxel step, computed once at construction. -/
structure StartParams where
  start_x : ℚ
  start_y : ℚ
  start_z : ℚ
  voxel_width : ℚ
  voxel_height : ℚ
  voxel_depth : ℚ

/-- `VoxelCarving::calcStartParameter`: expand the box by a 6% margin per side on X and
20% per side on Y, keep the Z extent unchanged, anchor `start_z` at 0, and divide each
expanded extent by `voxel_dim`. -/
def calcStartParameter (voxel_dim : ℕ) (bbox : BbBounds) : StartParams :=
  let MARGIN_X : ℚ := 6 / 100
  let MARGIN_Y : ℚ := 20 / 100
  let bb_width := |bbox.xmax - bbox.xmin| * (1 + 2 * MARGIN_X)
  let bb_height := |bbox.ymax - bbox.ymin| * (1 + 2 * MARGIN_Y)
  let bb_depth := |bbox.zmax - bbox.zmin|
  let offset_x := (bb_width - |bbox.xmax - bbox.xmin|) / 2
  let offset_y := (bb_height - |bbox.ymax - bbox.ymin|) / 2
  { start_x := bbox.xmin - offset_x
    start_y := bbox.ymin - offset_y
    start_z := 0
    voxel_width := bb_width / (voxel_dim : ℚ)
    voxel_height := bb_height / (voxel_dim : ℚ)
    voxel_depth := bb_depth / (voxel_dim : ℚ) }

/-- `vec3f`: a 3-component float vector. -/
structure vec3f where
  x : ℚ
  y : ℚ
  z : ℚ
  deriving DecidableEq

/-- `triangle`: three vertices (the `comp.v1/v2/v3` view of the C union). -/
structure triangle where
  v1 : vec3f
  v2 : vec3f
  v3 : vec3f
  deriving DecidableEq

/-- `VoxelCarving::calcSurfaceNormal`: the cross product
`(v2 - v1) × (v3 - v1)`, written component-wise exactly as in the source. -/
def calcSurfaceNormal (v1 v2 v3 : vec3f) : vec3f :=
  { x := (v2.y - v1.y) * (v3.z - v1.z) - (v3.y - v1.y) * (v2.z - v1.z)
    y := (v2.z - v1.z) * (v3.x - v1.x) - (v2.x - v1.x) * (v3.z - v1.z)
    z := (v2.x - v1.x) * (v3.y - v1.y) - (v3.x - v1.x) * (v2.y - v1.y) }

/-- `VoxelCarving::calcSurfaceNormals`: the loop body runs once per triangle and
appends a single normal each time (it reserves `3 * size` but pushes once per
iteration), so the result is a map over the triangle list. -/
def calcSurfaceNormals (triangles : List triangle) : List vec3f :=
  triangles.map (fun tri => calcSurfaceNormal tri.v1 tri.v2 tri.v3)

/-- `PolyData`: the extracted mesh, a triangle list plus a normal list. -/
structure PolyData where
  triangles : List triangle
  normals : List vec3f

/-- `VoxelCarving::exportToDisk`: `assert(visual_hull_.getTriangles().size() > 0)` and
then write the mesh. The assertion is modelled as `Option`: `none` is the fatal
precondition failure, `some` carries the data handed to `saveASOBJ`. -/
def exportToDisk (visual_hull : PolyData) : Option (List triangle × List vec3f) :=
  if 0 < visual_hull.triangles.length then
    some (visual_hull.triangles, visual_hull.normals)
  else none

/-- `voxel`: a transient world-space point with a scratch value field. -/
structure voxel where
  xpos : ℚ
  ypos : ℚ
  zpos : ℚ
  value : ℚ

/-- One camera observation, as read by a single `carve` call. -/
structure Camera where
  img_width : ℤ
  img_height : ℤ
  mask : ℤ × ℤ → ℕ
  distMap : ℤ × ℤ → ℚ
  project : voxel → ℤ × ℤ

/-- Modelled from the spec: the helper `inside(coord, img_size)` from `cv_utils.hpp`
is not in the carving source file; per the spec a value is sampled only when
"the projected coordinate falls [within] the image bounds". -/
def inside (coord : ℤ × ℤ) (w h : ℤ) : Bool :=
  decide (0 ≤ coord.1 ∧ coord.1 < w ∧ 0 ≤ coord.2 ∧ coord.2 < h)

/-- `VoxelCarving::calcVoxelPosInCamViewFrustum`: world-space voxel center for grid
coordinates `(i, j, k)`. -/
def calcVoxelPosInCamViewFrustum (params : StartParams) (i j k : ℕ) : voxel :=
  { xpos := params.start_x + (k : ℚ) * params.voxel_width
    ypos := params.start_y + (j : ℚ) * params.voxel_height
    zpos := params.start_z + (i : ℚ) * params.voxel_depth
    value := 1 }

/-- The distance contributed by one voxel in one `carve` iteration: `-1` when the
projection lands outside the image, otherwise the distance-map sample, negated when
the mask pixel is `0` (background). -/
def voxelDist (cam : Camera) (v : voxel) : ℚ :=
  let coord := cam.project v
  if inside coord cam.img_width cam.img_height then
    let s := cam.distMap coord
    if cam.mask coord = 0 then -s else s
  else -1

/-- The linear index `k + j * voxel_dim + i * voxel_slice_` with
`voxel_slice_ = voxel_dim * voxel_dim`. -/
def voxelIdx (voxel_dim i j k : ℕ) : ℕ :=
  k + j * voxel_dim + i * (voxel_dim * voxel_dim)

/-- The innermost loop body of `VoxelCarving::carve`:
`if (dist < vox_array_[idx]) vox_array_[idx] = dist;`. -/
def carveStep (cam : Camera) (voxel_dim : ℕ) (params : StartParams)
    (vox : List ℚ) (i j k : ℕ) : List ℚ :=
  let v := calcVoxelPosInCamViewFrustum params i j k
  let dist := voxelDist cam v
  let idx := voxelIdx voxel_dim i j k
  if dist < vox.getD idx 0 then vox.set idx dist else vox

/-- `VoxelCarving::carve`: the triple-nested loop over `i, j, k ∈ [0, voxel_dim)`,
folding `carveStep` through the backing buffer. -/
def carve (cam : Camera) (voxel_dim : ℕ) (params : StartParams)
    (vox : List ℚ) : List ℚ :=
  (List.range voxel_dim).foldl (fun vox1 i =>
    (List.range voxel_dim).foldl (fun vox2 j =>
      (List.range voxel_dim).foldl (fun vox3 k =>
        carveStep cam voxel_dim params vox3 i j k) vox2) vox1) vox

/-- `std::numeric_limits<float>::max()` as an exact rational: `(2 - 2⁻²³) · 2¹²⁷`. -/
def floatMax : ℚ := (2 ^ 24 - 1) * 2 ^ 104

/-- The `VoxelCarving` object state set up by the constructor. -/
structure VoxelCarving where
  voxel_dim : ℕ
  vox_array : List ℚ
  visual_hull : PolyData
  params : StartParams

/-- `VoxelCarving::VoxelCarving`: store the dimension, allocate `voxel_dim³` floats all
filled with `FLT_MAX`, leave the hull empty, and compute the start parameters. -/
def VoxelCarving.init (bbox : BbBounds) (voxel_dim : ℕ) : VoxelCarving :=
  { voxel_dim := voxel_dim
    vox_array := List.replicate (voxel_dim * voxel_dim * voxel_dim) floatMax
    visual_hull := { triangles := [], normals := [] }
    params := calcStartParameter voxel_dim bbox }

/-- Applying `carve` once per camera in list order (the caller's per-camera loop). -/
def applyAll (voxel_dim : ℕ) (params : StartParams)
    (cams : List Camera) (vox : List ℚ) : List ℚ :=
  cams.foldl (fun v cam => carve cam voxel_dim params v) vox

/-- The `(j, k)` plane of loop iterations for a fixed outer index `i`. -/
def rowTriples (d i : ℕ) : List (ℕ × ℕ × ℕ) :=
  (List.range d).flatMap (fun j => (List.range d).map (fun k => (i, j, k)))

/-- All loop iterations of `carve`, in execution (lexicographic) order. -/
def carveTriples (d : ℕ) : List (ℕ × ℕ × ℕ) :=
  (List.range d).flatMap (rowTriples d)

/-- Folding `carveStep` through an explicit iteration list. -/
def carveRun (cam : Camera) (d : ℕ) (params : StartParams)
    (L : List (ℕ × ℕ × ℕ)) (vox : List ℚ) : List ℚ :=
  L.foldl (fun v t => carveStep cam d params v t.1 t.2.1 t.2.2) vox

/-- A concrete camera whose projection lands inside its 2×2 image. -/
def camA : Camera :=
  { img_width := 2, img_height := 2, mask := fun _ => 1, distMap := fun _ => 1,
    project := fun _ => (0, 0) }

/-- A concrete camera whose projection lands outside its 1×1 image. -/
def camB : Camera :=
  { img_width := 1, img_height := 1, mask := fun _ => 0, distMap := fun _ => 2,
    project := fun _ => (5, 0) }

/-- Concrete start parameters used to instantiate theorems. -/
def pA : StartParams :=
  { start_x := 0, start_y := 0, start_z := 0,
    voxel_width := 1, voxel_height := 1, voxel_depth := 1 }

/-- C1 counterexample: with the box `(0,10,0,10,0,10)` and `voxel_dim = 4`, the
source computes `start_x = 0 - (10·1.12 - 10)/2 = -0.6`, not `-0.3`. -/
theorem calcStartParameter_start_x_ne_neg_point3 :
    (calcStartParameter 4 ⟨0, 10, 0, 10, 0, 10⟩).start_x ≠ -(3 / 10) := by
  norm_num [calcStartParameter]

/-- C1 (amended): for the box `(0,10,0,10,zmin,zmax)` and `voxel_dim = 4`,
`calcStartParameter` returns `start_x = -0.6` (6% margin per side on a width-10 box,
i.e. 12% = 1.2 total expansion, offset 0.6 on each side), `voxel_width = 10·1.12/4 = 2.8`,
and `start_z = 0` regardless of the z extent. -/
theorem calcStartParameter_margin (zmin zmax : ℚ) :
    (calcStartParameter 4 ⟨0, 10, 0, 10, zmin, zmax⟩).start_x = -(6 / 10) ∧
    (calcStartParameter 4 ⟨0, 10, 0, 10, zmin, zmax⟩).voxel_width = 28 / 10 ∧
    (calcStartParameter 4 ⟨0, 10, 0, 10, zmin, zmax⟩).start_z = 0 := by
  norm_num [calcStartParameter]

/-- C2: evaluated on the one-triangle list `[(0,0,0), (1,0,0), (0,1,0)]`, the normal
list produced by `calcSurfaceNormals` has length 1 — one normal per triangle, not the
3 per triangle (one per vertex occurrence) that its own comment and `reserve(3·size)`
announce — and that single normal is the cross product `(0,0,1)`. -/
theorem calcSurfaceNormals_one_per_triangle :
    (calcSurfaceNormals [⟨⟨0, 0, 0⟩, ⟨1, 0, 0⟩, ⟨0, 1, 0⟩⟩]).length = 1 ∧
    (calcSurfaceNormals [⟨⟨0, 0, 0⟩, ⟨1, 0, 0⟩, ⟨0, 1, 0⟩⟩]).length ≠
      3 * ([⟨⟨0, 0, 0⟩, ⟨1, 0, 0⟩, ⟨0, 1, 0⟩⟩] : List triangle).length ∧
    calcSurfaceNormals [⟨⟨0, 0, 0⟩, ⟨1, 0, 0⟩, ⟨0, 1, 0⟩⟩] = [⟨0, 0, 1⟩] := by
  refine ⟨rfl, by simp [calcSurfaceNormals], ?_⟩
  norm_num [calcSurfaceNormals, calcSurfaceNormal]

/-- C7: immediately after construction, the field has `voxel_dim³` cells and every
cell holds `FLT_MAX`. -/
theorem init_vox_array_all_floatMax (bbox : BbBounds) (d n : ℕ) (h : n < d * d * d) :
    ((VoxelCarving.init bbox d).vox_array).getD n 0 = floatMax ∧
    ((VoxelCarving.init bbox d).vox_array).length = d * d * d := by
  constructor
  · rw [List.getD_eq_getElem _ _ (by simpa [VoxelCarving.init] using h)]
    simp [VoxelCarving.init]
  · simp [VoxelCarving.init]

/-- Witness for C7 at `d = 2`, `n = 7`. -/
theorem init_vox_array_all_floatMax_witness :
    ((VoxelCarving.init ⟨0, 0, 0, 0, 0, 0⟩ 2).vox_array).getD 7 0 = floatMax ∧
    ((VoxelCarving.init ⟨0, 0, 0, 0, 0, 0⟩ 2).vox_array).length = 2 * 2 * 2 :=
  init_vox_array_all_floatMax ⟨0, 0, 0, 0, 0, 0⟩ 2 7 (by decide)

/-- C8: exporting with an empty triangle list hits the assertion (`none`, nothing is
written); with a non-empty extracted mesh the assertion passes and the mesh data is
handed to the writer. -/
theorem exportToDisk_requires_mesh (hull : PolyData) :
    (hull.triangles = [] → exportToDisk hull = none) ∧
    (hull.triangles ≠ [] →
      exportToDisk hull = some (hull.triangles, hull.normals)) := by
  constructor
  · intro h; simp [exportToDisk, h]
  · intro h; simp [exportToDisk, List.length_pos.mpr h]

/-- Witness for C8: an empty hull is rejected, a one-triangle hull is exported. -/
theorem exportToDisk_requires_mesh_witness :
    exportToDisk ⟨[], []⟩ = none ∧
    exportToDisk ⟨[⟨⟨0, 0, 0⟩, ⟨1, 0, 0⟩, ⟨0, 1, 0⟩⟩], []⟩ =
      some ([⟨⟨0, 0, 0⟩, ⟨1, 0, 0⟩, ⟨0, 1, 0⟩⟩], []) :=
  ⟨(exportToDisk_requires_mesh ⟨[], []⟩).1 rfl,
   (exportToDisk_requires_mesh ⟨[⟨⟨0, 0, 0⟩, ⟨1, 0, 0⟩, ⟨0, 1, 0⟩⟩], []⟩).2
     (by simp)⟩

/-- C10: every extent is taken as an absolute value before margin expansion and the
division by `voxel_dim`, so all three voxel steps are non-negative for every bounding
box, including reversed or degenerate ones. -/
theorem calcStartParameter_steps_nonneg (d : ℕ) (bbox : BbBounds) :
    0 ≤ (calcStartParameter d bbox).voxel_width ∧
    0 ≤ (calcStartParameter d bbox).voxel_height ∧
    0 ≤ (calcStartParameter d bbox).voxel_depth := by
  unfold calcStartParameter
  refine ⟨?_, ?_, ?_⟩ <;> positivity

/-- A fold over a flattened iteration list is the corresponding nested fold. -/
lemma foldl_flatMap_eq {α β γ : Type} (g : α → List β) (f : γ → β → γ)
    (l : List α) (init : γ) :
    ((l.flatMap g).foldl f init) = l.foldl (fun acc a => (g a).foldl f acc) init := by
  induction l generalizing init with
  | nil => rfl
  | cons a l ih => simp [List.flatMap_cons, List.foldl_append, ih]

/-- The nested loop of `carve` equals the fold over the explicit iteration list. -/
lemma carve_eq_carveRun (cam : Camera) (d : ℕ) (params : StartParams) (vox : List ℚ) :
    carve cam d params vox = carveRun cam d params (carveTriples d) vox := by
  unfold carve carveRun carveTriples rowTriples
  simp only [foldl_flatMap_eq, List.foldl_map]

lemma carveStep_length (cam : Camera) (d : ℕ) (params : StartParams)
    (vox : List ℚ) (i j k : ℕ) :
    (carveStep cam d params vox i j k).length = vox.length := by
  simp only [carveStep]
  split <;> simp

lemma carveStep_getD_ne (cam : Camera) (d : ℕ) (params : StartParams)
    (vox : List ℚ) {i j k n : ℕ} (h : n ≠ voxelIdx d i j k) :
    (carveStep cam d params vox i j k).getD n 0 = vox.getD n 0 := by
  simp only [carveStep]
  split
  · simp [List.getD_eq_getElem?_getD, List.getElem?_set_ne (Ne.symm h)]
  · rfl

lemma carveStep_getD_self (cam : Camera) (d : ℕ) (params : StartParams)
    (vox : List ℚ) {i j k : ℕ} (h : voxelIdx d i j k < vox.length) :
    (carveStep cam d params vox i j k).getD (voxelIdx d i j k) 0 =
      min (vox.getD (voxelIdx d i j k) 0)
        (voxelDist cam (calcVoxelPosInCamViewFrustum params i j k)) := by
  simp only [carveStep]
  by_cases hlt : voxelDist cam (calcVoxelPosInCamViewFrustum params i j k) <
      vox.getD (voxelIdx d i j k) 0
  · rw [if_pos hlt, List.getD_eq_getElem?_getD, List.getElem?_set_self h,
      Option.getD_some]
    exact (min_eq_right (le_of_lt hlt)).symm
  · rw [if_neg hlt]
    exact (min_eq_left (not_lt.mp hlt)).symm

lemma mem_rowTriples {d i : ℕ} {t : ℕ × ℕ × ℕ} :
    t ∈ rowTriples d i ↔ t.1 = i ∧ t.2.1 < d ∧ t.2.2 < d := by
  rcases t with ⟨a, b, c⟩
  simp [rowTriples, Prod.ext_iff, eq_comm, and_comm]
  aesop

lemma mem_carveTriples {d : ℕ} {t : ℕ × ℕ × ℕ} :
    t ∈ carveTriples d ↔ t.1 < d ∧ t.2.1 < d ∧ t.2.2 < d := by
  rcases t with ⟨a, b, c⟩
  simp [carveTriples, mem_rowTriples]
  aesop

lemma nodup_rowTriples (d i : ℕ) : (rowTriples d i).Nodup := by
  unfold rowTriples
  refine List.nodup_flatMap.mpr ⟨?_, ?_⟩
  · intro j _
    refine List.Nodup.map ?_ (List.nodup_range d)
    intro a b hab
    simpa using hab
  · refine List.Pairwise.imp ?_ (List.nodup_range d)
    intro j1 j2 hne
    simp only [Function.onFun]
    intro x hx1 hx2
    rcases List.mem_map.mp hx1 with ⟨k1, _, rfl⟩
    rcases List.mem_map.mp hx2 with ⟨k2, _, hx⟩
    exact hne (by simpa using congrArg (fun y => y.2.1) hx.symm)

lemma nodup_carveTriples (d : ℕ) : (carveTriples d).Nodup := by
  unfold carveTriples
  refine List.nodup_flatMap.mpr ⟨fun i _ => nodup_rowTriples d i, ?_⟩
  · refine List.Pairwise.imp ?_ (List.nodup_range d)
    intro i1 i2 hne
    simp only [Function.onFun]
    intro x hx1 hx2
    have h1 := (mem_rowTriples.mp hx1).1
    have h2 := (mem_rowTriples.mp hx2).1
    exact hne (h1 ▸ h2 ▸ rfl)

lemma voxelIdx_inj {d i j k i' j' k' : ℕ} (hj : j < d) (hk : k < d)
    (hj' : j' < d) (hk' : k' < d)
    (h : voxelIdx d i j k = voxelIdx d i' j' k') : i = i' ∧ j = j' ∧ k = k' := by
  unfold voxelIdx at h
  have hd : 0 < d := lt_of_le_of_lt (Nat.zero_le _) hk
  have e1 : k + j * d + i * (d * d) = k + d * (j + d * i) := by ring
  have e2 : k' + j' * d + i' * (d * d) = k' + d * (j' + d * i') := by ring
  rw [e1, e2] at h
  have hkk : k = k' := by
    have := congrArg (· % d) h
    simpa [Nat.add_mul_mod_self_left, Nat.mod_eq_of_lt hk, Nat.mod_eq_of_lt hk'] using this
  subst hkk
  have h2 : j + d * i = j' + d * i' := by
    have := congrArg (· / d) h
    simpa [Nat.add_mul_div_left _ _ hd, Nat.div_eq_of_lt hk] using this
  have hjj : j = j' := by
    have := congrArg (· % d) h2
    simpa [Nat.add_mul_mod_self_left, Nat.mod_eq_of_lt hj, Nat.mod_eq_of_lt hj'] using this
  subst hjj
  have hii : i = i' := by
    have := congrArg (· / d) h2
    simpa [Nat.add_mul_div_left _ _ hd, Nat.div_eq_of_lt hj] using this
  exact ⟨hii, rfl, rfl⟩

lemma voxelIdx_lt {d i j k : ℕ} (hi : i < d) (hj : j < d) (hk : k < d) :
    voxelIdx d i j k < d * d * d := by
  unfold voxelIdx
  nlinarith

lemma pairwise_idx_carveTriples (d : ℕ) :
    (carveTriples d).Pairwise
      (fun s t => voxelIdx d s.1 s.2.1 s.2.2 ≠ voxelIdx d t.1 t.2.1 t.2.2) := by
  refine (nodup_carveTriples d).imp_of_mem ?_
  intro a b ha hb hab hidx
  apply hab
  rcases mem_carveTriples.mp ha with ⟨_, ha2, ha3⟩
  rcases mem_carveTriples.mp hb with ⟨_, hb2, hb3⟩
  rcases voxelIdx_inj ha2 ha3 hb2 hb3 hidx with ⟨e1, e2, e3⟩
  exact Prod.ext e1 (Prod.ext e2 e3)

lemma carveRun_length (cam : Camera) (d : ℕ) (params : StartParams)
    (L : List (ℕ × ℕ × ℕ)) (vox : List ℚ) :
    (carveRun cam d params L vox).length = vox.length := by
  induction L generalizing vox with
  | nil => rfl
  | cons t L ih =>
      exact (ih _).trans (carveStep_length cam d params vox t.1 t.2.1 t.2.2)

lemma carveRun_getD_of_forall_ne (cam : Camera) (d : ℕ) (params : StartParams)
    {L : List (ℕ × ℕ × ℕ)} (vox : List ℚ) {n : ℕ}
    (h : ∀ t ∈ L, voxelIdx d t.1 t.2.1 t.2.2 ≠ n) :
    (carveRun cam d params L vox).getD n 0 = vox.getD n 0 := by
  induction L generalizing vox with
  | nil => rfl
  | cons t L ih =>
      have step : (carveRun cam d params (t :: L) vox) =
          carveRun cam d params L (carveStep cam d params vox t.1 t.2.1 t.2.2) := rfl
      rw [step, ih _ (fun s hs => h s (List.mem_cons_of_mem _ hs))]
      exact carveStep_getD_ne cam d params vox
        (Ne.symm (h t (List.mem_cons_self t L)))

lemma carveRun_getD_single (cam : Camera) (d : ℕ) (params : StartParams)
    {L : List (ℕ × ℕ × ℕ)} (vox : List ℚ) {i j k : ℕ}
    (hP : L.Pairwise
      (fun s t => voxelIdx d s.1 s.2.1 s.2.2 ≠ voxelIdx d t.1 t.2.1 t.2.2))
    (hmem : (i, j, k) ∈ L)
    (hlen : voxelIdx d i j k < vox.length) :
    (carveRun cam d params L vox).getD (voxelIdx d i j k) 0 =
      min (vox.getD (voxelIdx d i j k) 0)
        (voxelDist cam (calcVoxelPosInCamViewFrustum params i j k)) := by
  induction L generalizing vox with
  | nil => cases hmem
  | cons s L ih =>
      rcases List.pairwise_cons.mp hP with ⟨hhead, htail⟩
      have step : (carveRun cam d params (s :: L) vox) =
          carveRun cam d params L (carveStep cam d params vox s.1 s.2.1 s.2.2) := rfl
      rcases List.mem_cons.mp hmem with heq | hmem'
      · subst heq
        rw [step, carveRun_getD_of_forall_ne cam d params _
          (fun t ht => Ne.symm (hhead t ht))]
        exact carveStep_getD_self cam d params vox hlen
      · rw [step, ih _ htail hmem'
          (by rw [carveStep_length]; exact hlen),
          carveStep_getD_ne cam d params vox
            (Ne.symm (hhead (i, j, k) hmem'))]

/-- The single-visit characterization of one `carve` call: the cell at
`voxelIdx d i j k` becomes the minimum of its old value and the distance computed
for the voxel at grid coordinates `(i, j, k)`. -/
lemma carve_getD_at (cam : Camera) (d : ℕ) (params : StartParams) (vox : List ℚ)
    (hL : vox.length = d * d * d) {i j k : ℕ} (hi : i < d) (hj : j < d) (hk : k < d) :
    (carve cam d params vox).getD (voxelIdx d i j k) 0 =
      min (vox.getD (voxelIdx d i j k) 0)
        (voxelDist cam (calcVoxelPosInCamViewFrustum params i j k)) := by
  rw [carve_eq_carveRun]
  exact carveRun_getD_single cam d params vox (pairwise_idx_carveTriples d)
    (mem_carveTriples.mpr ⟨hi, hj, hk⟩) (by rw [hL]; exact voxelIdx_lt hi hj hk)

lemma voxelIdx_decomp {d n : ℕ} (h : n < d * d * d) :
    n / (d * d) < d ∧ (n / d) % d < d ∧ n % d < d ∧
    voxelIdx d (n / (d * d)) ((n / d) % d) (n % d) = n := by
  have hd : 0 < d := by
    rcases Nat.eq_zero_or_pos d with rfl | hd
    · simp at h
    · exact hd
  refine ⟨Nat.div_lt_of_lt_mul h, Nat.mod_lt _ hd, Nat.mod_lt _ hd, ?_⟩
  unfold voxelIdx
  have e2 : (n / d) % d + d * (n / (d * d)) = n / d := by
    rw [← Nat.div_div_eq_div_mul]
    exact Nat.mod_add_div _ d
  calc n % d + (n / d % d) * d + (n / (d * d)) * (d * d)
      = n % d + d * ((n / d % d) + d * (n / (d * d))) := by ring
    _ = n % d + d * (n / d) := by rw [e2]
    _ = n := Nat.mod_add_div n d

lemma carve_length (cam : Camera) (d : ℕ) (params : StartParams) (vox : List ℚ) :
    (carve cam d params vox).length = vox.length := by
  rw [carve_eq_carveRun]
  exact carveRun_length cam d params _ vox

/-- Full pointwise characterization of one `carve` call on a well-sized field. -/
lemma carve_getD (cam : Camera) (d : ℕ) (params : StartParams) (vox : List ℚ)
    (hL : vox.length = d * d * d) (n : ℕ) :
    (carve cam d params vox).getD n 0 =
      if n < d * d * d then
        min (vox.getD n 0)
          (voxelDist cam
            (calcVoxelPosInCamViewFrustum params (n / (d * d)) ((n / d) % d) (n % d)))
      else vox.getD n 0 := by
  by_cases h : n < d * d * d
  · rcases voxelIdx_decomp h with ⟨hi, hj, hk, hidx⟩
    have hmain := carve_getD_at cam d params vox hL hi hj hk
    rw [hidx] at hmain
    rw [if_pos h]
    exact hmain
  · rw [if_neg h, carve_eq_carveRun]
    apply carveRun_getD_of_forall_ne
    intro t ht hcontra
    rcases mem_carveTriples.mp ht with ⟨h1, h2, h3⟩
    exact h (hcontra ▸ voxelIdx_lt h1 h2 h3)

lemma carveStep_getD_le (cam : Camera) (d : ℕ) (params : StartParams)
    (vox : List ℚ) (i j k n : ℕ) :
    (carveStep cam d params vox i j k).getD n 0 ≤ vox.getD n 0 := by
  by_cases hne : n = voxelIdx d i j k
  · subst hne
    simp only [carveStep]
    by_cases hlt : voxelDist cam (calcVoxelPosInCamViewFrustum params i j k) <
        vox.getD (voxelIdx d i j k) 0
    · rw [if_pos hlt]
      by_cases hlen : voxelIdx d i j k < vox.length
      · rw [List.getD_eq_getElem?_getD, List.getElem?_set_self hlen, Option.getD_some]
        exact le_of_lt hlt
      · rw [List.getD_eq_getElem?_getD, List.getElem?_set, if_pos rfl, if_neg hlen,
          List.getD_eq_getElem?_getD vox, List.getElem?_eq_none (le_of_not_lt hlen)]
    · rw [if_neg hlt]
  · rw [carveStep_getD_ne cam d params vox hne]

lemma carveRun_getD_le (cam : Camera) (d : ℕ) (params : StartParams)
    (L : List (ℕ × ℕ × ℕ)) (vox : List ℚ) (n : ℕ) :
    (carveRun cam d params L vox).getD n 0 ≤ vox.getD n 0 := by
  induction L generalizing vox with
  | nil => exact le_refl _
  | cons t L ih =>
      exact (ih _).trans (carveStep_getD_le cam d params vox t.1 t.2.1 t.2.2 n)

/-- C3: one more `carve` call never raises a stored voxel value — after the
`(N+1)`-st call every cell is `≤` its value after the first `N` calls. -/
theorem carve_monotone (cam : Camera) (d : ℕ) (params : StartParams)
    (cams : List Camera) (vox : List ℚ) (n : ℕ) :
    (carve cam d params (applyAll d params cams vox)).getD n 0 ≤
      (applyAll d params cams vox).getD n 0 := by
  rw [carve_eq_carveRun]
  exact carveRun_getD_le cam d params _ _ n

lemma carve_comm (c1 c2 : Camera) (d : ℕ) (params : StartParams) (vox : List ℚ)
    (hL : vox.length = d * d * d) :
    carve c1 d params (carve c2 d params vox) =
      carve c2 d params (carve c1 d params vox) := by
  have hL2 : (carve c2 d params vox).length = d * d * d := by rw [carve_length, hL]
  have hL1 : (carve c1 d params vox).length = d * d * d := by rw [carve_length, hL]
  apply List.ext_getElem
  · rw [carve_length, carve_length, carve_length, carve_length]
  · intro n h1 h2
    rw [← List.getD_eq_getElem _ 0 h1, ← List.getD_eq_getElem _ 0 h2,
        carve_getD c1 d params _ hL2 n, carve_getD c2 d params _ hL1 n,
        carve_getD c2 d params vox hL n, carve_getD c1 d params vox hL n]
    by_cases h : n < d * d * d
    · simp only [if_pos h]
      exact min_right_comm _ _ _
    · simp only [if_neg h]

/-- C4: applying one `carve` call per observation in any two orders of the same
multiset of observations yields the same final field. -/
theorem applyAll_perm (d : ℕ) (params : StartParams) {L1 L2 : List Camera}
    (hperm : L1.Perm L2) (vox : List ℚ) (hL : vox.length = d * d * d) :
    applyAll d params L1 vox = applyAll d params L2 vox := by
  induction hperm generalizing vox with
  | nil => rfl
  | cons c _ ih =>
      exact ih (carve c d params vox) (by rw [carve_length, hL])
  | swap c1 c2 l =>
      show applyAll d params l (carve c1 d params (carve c2 d params vox)) =
           applyAll d params l (carve c2 d params (carve c1 d params vox))
      rw [carve_comm c1 c2 d params vox hL]
  | trans _ _ ih1 ih2 =>
      exact (ih1 vox hL).trans (ih2 vox hL)

/-- Witness for C4: swapping two concrete observations on a 1-voxel field. -/
theorem applyAll_perm_witness :
    applyAll 1 pA [camA, camB] [(5 : ℚ)] = applyAll 1 pA [camB, camA] [(5 : ℚ)] :=
  applyAll_perm 1 pA (List.Perm.swap camB camA []) [(5 : ℚ)] rfl

/-- C9: repeating the same `carve` call leaves the field unchanged:
`min (min x d) d = min x d` per cell. -/
theorem carve_idempotent (cam : Camera) (d : ℕ) (params : StartParams)
    (vox : List ℚ) (hL : vox.length = d * d * d) :
    carve cam d params (carve cam d params vox) = carve cam d params vox := by
  have hL1 : (carve cam d params vox).length = d * d * d := by rw [carve_length, hL]
  apply List.ext_getElem
  · rw [carve_length]
  · intro n h1 h2
    rw [← List.getD_eq_getElem _ 0 h1, ← List.getD_eq_getElem _ 0 h2,
        carve_getD cam d params _ hL1 n, carve_getD cam d params vox hL n]
    by_cases h : n < d * d * d
    · simp only [if_pos h]
      rw [min_assoc, min_self]
    · simp only [if_neg h]

/-- Witness for C9 on a concrete 1-voxel field. -/
theorem carve_idempotent_witness :
    carve camA 1 pA (carve camA 1 pA [(5 : ℚ)]) = carve camA 1 pA [(5 : ℚ)] :=
  carve_idempotent camA 1 pA [(5 : ℚ)] rfl

/-- C5: the distance folded into a voxel is exactly `-1` when its projection lands
outside the image bounds, and otherwise the distance-map sample at that pixel,
negated when the mask there is 0 (background); the cell is updated to
`min(current, distance)`. -/
theorem carve_dist_rule (cam : Camera) (d : ℕ) (params : StartParams) (vox : List ℚ)
    (hL : vox.length = d * d * d) {i j k : ℕ} (hi : i < d) (hj : j < d) (hk : k < d) :
    (inside (cam.project (calcVoxelPosInCamViewFrustum params i j k))
        cam.img_width cam.img_height = false →
      (carve cam d params vox).getD (voxelIdx d i j k) 0 =
        min (vox.getD (voxelIdx d i j k) 0) (-1)) ∧
    (inside (cam.project (calcVoxelPosInCamViewFrustum params i j k))
        cam.img_width cam.img_height = true →
      (carve cam d params vox).getD (voxelIdx d i j k) 0 =
        min (vox.getD (voxelIdx d i j k) 0)
          (if cam.mask (cam.project (calcVoxelPosInCamViewFrustum params i j k)) = 0
           then -(cam.distMap (cam.project (calcVoxelPosInCamViewFrustum params i j k)))
           else cam.distMap (cam.project (calcVoxelPosInCamViewFrustum params i j k)))) := by
  have hmain := carve_getD_at cam d params vox hL hi hj hk
  constructor
  · intro hout
    rw [hmain]
    simp [voxelDist, hout]
  · intro hin
    rw [hmain]
    simp [voxelDist, hin]

/-- Witness for C5: a camera whose projection falls outside its 1×1 image. -/
theorem carve_dist_rule_witness :
    (inside (camB.project (calcVoxelPosInCamViewFrustum pA 0 0 0))
        camB.img_width camB.img_height = false →
      (carve camB 1 pA [(5 : ℚ)]).getD (voxelIdx 1 0 0 0) 0 =
        min (([(5 : ℚ)]).getD (voxelIdx 1 0 0 0) 0) (-1)) ∧
    (inside (camB.project (calcVoxelPosInCamViewFrustum pA 0 0 0))
        camB.img_width camB.img_height = true →
      (carve camB 1 pA [(5 : ℚ)]).getD (voxelIdx 1 0 0 0) 0 =
        min (([(5 : ℚ)]).getD (voxelIdx 1 0 0 0) 0)
          (if camB.mask (camB.project (calcVoxelPosInCamViewFrustum pA 0 0 0)) = 0
           then -(camB.distMap (camB.project (calcVoxelPosInCamViewFrustum pA 0 0 0)))
           else camB.distMap (camB.project (calcVoxelPosInCamViewFrustum pA 0 0 0)))) :=
  carve_dist_rule camB 1 pA [(5 : ℚ)] rfl (by decide) (by decide) (by decide)

/-- C6: the voxel with grid coordinates `(i, j, k)` sits at world position
`(start_x + k·w, start_y + j·h, start_z + i·depth)` and its value lives at linear
index `k + j·voxel_dim + i·voxel_dim²`, where `carve` updates it by the min rule. -/
theorem carve_voxel_mapping (cam : Camera) (d : ℕ) (params : StartParams)
    (vox : List ℚ) (hL : vox.length = d * d * d)
    {i j k : ℕ} (hi : i < d) (hj : j < d) (hk : k < d) :
    (calcVoxelPosInCamViewFrustum params i j k).xpos =
        params.start_x + (k : ℚ) * params.voxel_width ∧
    (calcVoxelPosInCamViewFrustum params i j k).ypos =
        params.start_y + (j : ℚ) * params.voxel_height ∧
    (calcVoxelPosInCamViewFrustum params i j k).zpos =
        params.start_z + (i : ℚ) * params.voxel_depth ∧
    (carve cam d params vox).getD (k + j * d + i * (d * d)) 0 =
      min (vox.getD (k + j * d + i * (d * d)) 0)
        (voxelDist cam (calcVoxelPosInCamViewFrustum params i j k)) :=
  ⟨rfl, rfl, rfl, carve_getD_at cam d params vox hL hi hj hk⟩

/-- Witness for C6 at `d = 2`, `(i, j, k) = (1, 1, 1)`. -/
theorem carve_voxel_mapping_witness :
    (calcVoxelPosInCamViewFrustum pA 1 1 1).xpos =
        pA.start_x + (1 : ℚ) * pA.voxel_width ∧
    (calcVoxelPosInCamViewFrustum pA 1 1 1).ypos =
        pA.start_y + (1 : ℚ) * pA.voxel_height ∧
    (calcVoxelPosInCamViewFrustum pA 1 1 1).zpos =
        pA.start_z + (1 : ℚ) * pA.voxel_depth ∧
    (carve camA 2 pA (List.replicate 8 (3 : ℚ))).getD (1 + 1 * 2 + 1 * (2 * 2)) 0 =
      min ((List.replicate 8 (3 : ℚ)).getD (1 + 1 * 2 + 1 * (2 * 2)) 0)
        (voxelDist camA (calcVoxelPosInCamViewFrustum pA 1 1 1)) :=
  carve_voxel_mapping camA 2 pA (List.replicate 8 (3 : ℚ)) rfl
    (by decide) (by decide) (by decide)

end Restore
